import Mathlib

/-!
Verification of the dataset-utility scripts:

* `convert_jsonl_to_parquet.py` — the Format Converter,
* `examples/data_preprocess/olympic_dataset.py` — the Dataset Normalizer,
* `examples/data_preprocess/split_and_upload_olympic.py` — the Splitter/Uploader.

Pure functions of the scripts are embedded as Lean functions; the file system
and the remote hub are passed in explicitly; fallible steps return `Except` or
`Option`.  External collaborators whose code is not part of the repository
(the JSON parser, the columnar writer, the hub client, the dataset library's
shuffle and split operations) are modelled from the specification, each marked
as such in its doc comment.
-/

namespace Verl

/-! ## Format Converter (`convert_jsonl_to_parquet.py`) -/

/-- Diagnostics printed by the converter, modelled structurally instead of as
raw message strings. -/
inductive ConvDiag where
  | parseFailure : Nat → ConvDiag
  | emptyInput : ConvDiag
  | inputMissing : ConvDiag
deriving DecidableEq, Repr

/-- Result of one converter call.  `raised` is the uncaught exception, if any
(the embedded code path never leaves one uncaught: the per-line JSON failure is
caught in `read_jsonl` and the missing-file case is checked before reading);
`written` is the output file (path and rows) when one is produced. -/
structure ConvOutcome (R : Type) where
  raised : Option String
  written : Option (String × List R)
  diags : List ConvDiag
deriving DecidableEq, Repr

/-- Whitespace test used by `str.strip()`. -/
def isSpaceChar (c : Char) : Bool :=
  c = ' ' || c = '\t' || c = '\n' || c = '\r'

/-- Embeds `line.strip()`: remove leading and trailing whitespace. -/
def pyStrip (s : String) : String :=
  String.mk (((s.data.dropWhile isSpaceChar).reverse.dropWhile isSpaceChar).reverse)

/-- Embeds the loop of `read_jsonl`: strip each line, silently skip blank
lines, parse the rest, keep successfully parsed records and emit a diagnostic
for each line that fails to parse.  `parse` stands for `json.loads`, with
`Option.none` for a raised `JSONDecodeError` (caught by the loop).  The first
argument is the 1-based line number. -/
def read_jsonl_from {R : Type} (parse : String → Option R) :
    Nat → List String → List R × List ConvDiag
  | _, [] => ⟨[], []⟩
  | n, line :: rest =>
    let tail := read_jsonl_from parse (n + 1) rest
    let stripped := pyStrip line
    if stripped = "" then tail
    else
      match parse stripped with
      | Option.some obj => ⟨obj :: tail.1, tail.2⟩
      | Option.none => ⟨tail.1, ConvDiag.parseFailure n :: tail.2⟩

/-- Embeds `read_jsonl`: line numbering starts at 1 (`enumerate(f, 1)`). -/
def read_jsonl {R : Type} (parse : String → Option R) (lines : List String) :
    List R × List ConvDiag :=
  read_jsonl_from parse 1 lines

/-- Modelled from the spec: the path-derivation collaborator
(`Path.with_suffix`), which replaces the final extension of the input path with
the snapshot extension, or appends it when the path has none. -/
def with_suffix_parquet (p : String) : String :=
  let rev := p.data.reverse
  if rev.contains (Char.ofNat 46) then
    String.mk (((rev.dropWhile (fun c => c != Char.ofNat 46)).drop 1).reverse) ++ ".parquet"
  else p ++ ".parquet"

/-- Embeds `convert_jsonl_to_parquet`: derive the output path when none is
given, return with a diagnostic when the input file does not exist, read the
records, return with a warning when no record parsed, otherwise write one row
per parsed record.  `fs` is the file-system collaborator (path to lines of
text); the tabular construction and columnar write are modelled from the spec
as preserving every record as one row. -/
def convert_jsonl_to_parquet {R : Type} (fs : String → Option (List String))
    (parse : String → Option R) (jsonl_path : String)
    (parquet_path : Option String) : ConvOutcome R :=
  let out_path :=
    match parquet_path with
    | Option.none => with_suffix_parquet jsonl_path
    | Option.some p => p
  match fs jsonl_path with
  | Option.none => ⟨Option.none, Option.none, [ConvDiag.inputMissing]⟩
  | Option.some lines =>
    let dataDiags := read_jsonl parse lines
    if dataDiags.1.isEmpty then
      ⟨Option.none, Option.none, dataDiags.2 ++ [ConvDiag.emptyInput]⟩
    else
      ⟨Option.none, Option.some ⟨out_path, dataDiags.1⟩, dataDiags.2⟩

/-- Number of lines of the input that are non-blank and valid JSON (the `N` of
the claim), stated directly on the input. -/
def validCount {R : Type} (parse : String → Option R) (lines : List String) : Nat :=
  (lines.filter (fun l => (pyStrip l != "") && (parse (pyStrip l)).isSome)).length

/-- Number of lines of the input that are non-blank and fail to parse (the `M`
of the claim). -/
def malformedCount {R : Type} (parse : String → Option R) (lines : List String) : Nat :=
  (lines.filter (fun l => (pyStrip l != "") && (parse (pyStrip l)).isNone)).length

/-- Counts the per-line parse diagnostics among the emitted diagnostics. -/
def parseFailureCount (ds : List ConvDiag) : Nat :=
  ds.countP (fun d => match d with | ConvDiag.parseFailure _ => true | _ => false)

/-! ## Dataset Normalizer (`examples/data_preprocess/olympic_dataset.py`) -/

/-- A Raw Record: an open-ended mapping from field name to value, modelled as
an ordered association list with string payloads. -/
abbrev RawRecord : Type := List (String × String)

/-- One chat message of a prompt. -/
structure Message where
  role : String
  content : String
deriving DecidableEq, Repr

/-- The fixed-shape reward specification of a Normalized Record. -/
structure RewardSpec where
  style : String
  ground_truth : String
deriving DecidableEq, Repr

/-- The provenance metadata of a Normalized Record. -/
structure ExtraInfo where
  split : String
  index : Nat
  question : String
deriving DecidableEq, Repr

/-- A Normalized Record, the fixed schema built by `_process_fn`. -/
structure NormRecord where
  data_source : String
  prompt : List Message
  ability : String
  reward_model : RewardSpec
  extra_info : ExtraInfo
deriving DecidableEq, Repr

/-- Embeds `dict.pop`: remove the first binding of the key and return its
value together with the remaining record; `Option.none` models the raised
`KeyError` when the key is absent. -/
def popField : RawRecord → String → Option (String × RawRecord)
  | [], _ => Option.none
  | (k, v) :: rest, key =>
    if k = key then Option.some ⟨v, rest⟩
    else
      match popField rest key with
      | Option.none => Option.none
      | Option.some ⟨v2, r2⟩ => Option.some ⟨v2, (k, v) :: r2⟩

/-- The fixed instructional template of `_process_fn` up to the interpolated
question (the text of the f-string literal before the interpolation point). -/
def promptHead : String :=
  "\nYour task is to write a proof solution to the following problem. Your proof will be graded by judges for correctness and completeness. When you write your proof, follow these guidelines:\n"
  ++ "  - You are creating a proof, not a proof outline. Each step should be carefully explained and documented. If not properly explained, the judge will assume that you cannot explain it, and therefore decrease your grade.\n"
  ++ "  - You can use general theorems and lemmas, but only if they are well-known. As a rule of thumb: if the result has a name and is famous enough to have a Wikipedia page or something similar to describe it, it is allowed. Any result from papers that would not be taught in high school or low-level bachelor courses in mathematics should not be used. Any use of such results will immediately give you a zero grade.\n"
  ++ "  - Do not skip computation steps in your proof. Clearly explain what transformations were done and why they are allowed in each step of a calculation.\n"
  ++ "  - You should use correct LaTeX notation to write equations and mathematical symbols. You should encompass these equations in appropriate symbols (\"\\\\(\" and \"\\\\)\" for inline math, \"\\\\[\" and \"\\\\]\" for block math) to enhance the clarity of your proof. Do not use any unicode characters.\n"
  ++ "  - Your proof should be self-contained.\n"
  ++ "  - If you are not sure about a specific step, or do not know how to prove an intermediate result, clearly state this. It is much preferable to indicate your uncertainty rather than making incorrect statements or claims.\n"
  ++ "\nPROBLEM: "

/-- The full prompt text of `_process_fn`: the template with the raw question
interpolated, followed by the closing newline of the f-string. -/
def prompt_text_of (question_raw : String) : String :=
  promptHead ++ question_raw ++ "\n"

/-- Embeds `_process_fn` (as produced by `_make_map_fn split data_source`):
pop the `question` field — a missing field raises `KeyError`, modelled as
`Except.error` — and build the Normalized Record. -/
def process_fn (split : String) (data_source : String) (ex : RawRecord)
    (idx : Nat) : Except String NormRecord :=
  match popField ex "question" with
  | Option.none => Except.error "KeyError: question"
  | Option.some ⟨question_raw, _⟩ =>
    Except.ok
      ⟨data_source,
       [⟨"user", prompt_text_of question_raw⟩],
       "math",
       ⟨"llm_as_a_judge", "0"⟩,
       ⟨split, idx, question_raw⟩⟩

/-- Embeds `hf_split.map(function=_make_map_fn(...), with_indices=True)`
(the dataset library's map with zero-based row indices, sequential, aborting
on the first raised error), starting at the given index. -/
def mapSplitFrom (split : String) (data_source : String) :
    Nat → List RawRecord → Except String (List NormRecord)
  | _, [] => Except.ok []
  | i, ex :: rest =>
    match process_fn split data_source ex i with
    | Except.error e => Except.error e
    | Except.ok n =>
      match mapSplitFrom split data_source (i + 1) rest with
      | Except.error e => Except.error e
      | Except.ok ns => Except.ok (n :: ns)

/-- Mapping one whole split: indices start at 0. -/
def mapSplit (split : String) (data_source : String) (records : List RawRecord) :
    Except String (List NormRecord) :=
  mapSplitFrom split data_source 0 records

/-- The local output directory, modelled as a map from file name to the rows
of the snapshot written there. -/
def NormFs : Type := String → Option (List NormRecord)

/-- The empty output directory. -/
def emptyFs : NormFs := fun _ => Option.none

/-- Writing (or overwriting) one snapshot file. -/
def writeFile (fs : NormFs) (name : String) (content : List NormRecord) : NormFs :=
  fun n => if n = name then Option.some content else fs n

/-- Embeds the per-split loop of the Normalizer's main block: process each
split in order and write `<split>.parquet`; a raised per-record error aborts
the run. -/
def writeSplits (data_source : String) :
    List (String × List RawRecord) → NormFs → Except String NormFs
  | [], fs => Except.ok fs
  | (name, records) :: rest, fs =>
    match mapSplit name data_source records with
    | Except.error e => Except.error e
    | Except.ok mapped =>
      writeSplits data_source rest (writeFile fs (name ++ ".parquet") mapped)

/-- Embeds the Normalizer's main block after loading: write every split, then,
when the source has a `validation` split and no `test` split, copy the
`validation` snapshot to `test.parquet` (only when the source file exists).
`splits` is the loaded dataset: split names with their records.  The optional
HDFS mirroring is outside the modelled state. -/
def runNormalizer (data_source : String) (splits : List (String × List RawRecord)) :
    Except String NormFs :=
  match writeSplits data_source splits emptyFs with
  | Except.error e => Except.error e
  | Except.ok fs =>
    if (splits.map Prod.fst).contains "validation"
        && !((splits.map Prod.fst).contains "test") then
      match fs "validation.parquet" with
      | Option.some content => Except.ok (writeFile fs "test.parquet" content)
      | Option.none => Except.ok fs
    else Except.ok fs

/-- Total accessor for a successful result, used to state closed instances of
the theorems at concrete inputs. -/
def okD {β : Type} (e : Except String (List β)) : List β :=
  match e with
  | Except.ok l => l
  | Except.error _ => []

/-- Total accessor for the output directory of a successful Normalizer run. -/
def okFs (e : Except String NormFs) : NormFs :=
  match e with
  | Except.ok fs => fs
  | Except.error _ => emptyFs

/-! ## Splitter/Uploader (`examples/data_preprocess/split_and_upload_olympic.py`) -/

/-- The observable network/disk actions of a Splitter run, in order.
`loadDataset repo` is `datasets.load_dataset(repo)` — a download from the hub
plus its on-disk cache; `pushToHub repo priv` is
`DatasetDict.push_to_hub(repo, private=priv, token=...)` — the upload. -/
inductive SplitterEvent where
  | loadDataset : String → SplitterEvent
  | pushToHub : String → Bool → SplitterEvent
deriving DecidableEq, Repr

/-- The two output splits of a Splitter run. -/
structure SplitPair (α : Type) where
  train : List α
  test : List α
deriving DecidableEq, Repr

/-- Modelled from the spec: the mixing function behind the seed-indexed
shuffle of the dataset library (`Dataset.shuffle(seed=...)`, whose code is not
part of this repository).  It assigns each original position a pseudo-random
sort key derived from the seed alone. -/
def shuffleKey (seed : Nat) (i : Nat) : Nat :=
  (2654435761 * (seed + i + 1) + 40503 * i + seed) % 4294967296

/-- Modelled from the spec: `Dataset.shuffle(seed=...)` — a deterministic
permutation of the record sequence indexed by the seed: decorate each record
with its position's sort key, sort stably by the key, and drop the keys. -/
def shuffle {α : Type} (seed : Nat) (xs : List α) : List α :=
  (List.insertionSort (fun a b => shuffleKey seed a.1 ≤ shuffleKey seed b.1)
    xs.enum).map Prod.snd

/-- Modelled from the spec: the size of the `test` split — the test fraction
of `K` records, rounded up to a whole record.  The test fraction is the exact
rational `tsNum / tsDen`. -/
def nTestOf (tsNum : Nat) (tsDen : Nat) (K : Nat) : Nat :=
  (tsNum * K + tsDen - 1) / tsDen

/-- Modelled from the spec: `Dataset.train_test_split(test_size=...)` — take a
contiguous fraction `test_size` of the record sequence as `test` and the
remainder as `train`. -/
def train_test_split {α : Type} (tsNum : Nat) (tsDen : Nat) (xs : List α) :
    SplitPair α :=
  ⟨xs.drop (nTestOf tsNum tsDen xs.length), xs.take (nTestOf tsNum tsDen xs.length)⟩

/-- Looking up a split by name in a loaded dataset (`"train" in original` /
`original["train"]`). -/
def lookupSplit {α : Type} (dd : List (String × List α)) (name : String) :
    Option (List α) :=
  (dd.find? (fun p => p.1 == name)).map Prod.snd

/-- Embeds the main block of the Splitter/Uploader.  `repo` is
`--original_repo`; the test fraction is `tsNum / tsDen`; `token` is
`--hf_token` already merged with the `HF_TOKEN` environment default (the
argparse default), where `Option.none` or an empty string are both falsy;
`hub` is the remote-repository collaborator mapping a repo id to its splits.
Returns the trace of network/disk events together with either the raised
error or the produced partition.  `random.seed(args.seed)` only seeds an
otherwise unused global generator and has no observable effect. -/
def runSplitter {α : Type} (repo : String) (tsNum : Nat) (tsDen : Nat)
    (token : Option String) (seed : Nat) (priv : Bool)
    (hub : String → List (String × List α)) :
    List SplitterEvent × Except String (SplitPair α) :=
  if token.getD "" = "" then
    ⟨[], Except.error "HF_TOKEN environment variable or --hf_token is required for upload"⟩
  else
    match lookupSplit (hub repo) "train" with
    | Option.none =>
      ⟨[SplitterEvent.loadDataset repo], Except.error "Original dataset has no train split"⟩
    | Option.some train_split =>
      let shuffled := shuffle seed train_split
      let sd := train_test_split tsNum tsDen shuffled
      ⟨[SplitterEvent.loadDataset repo, SplitterEvent.pushToHub repo priv], Except.ok sd⟩

/-- Total accessor for the partition of a successful Splitter run. -/
def okPair {α : Type} (e : Except String (SplitPair α)) : SplitPair α :=
  match e with
  | Except.ok sd => sd
  | Except.error _ => ⟨[], []⟩

/-! ## Concrete demonstration inputs -/

/-- A concrete parser for the converter instances: accepts exactly the
strings of at most three characters. -/
def demoParse (s : String) : Option String :=
  if s.data.length ≤ 3 then Option.some s else Option.none

/-- A concrete input file for the converter instances: three valid lines, one
malformed line, one blank line. -/
def demoLines : List String := ["ok1", "malformed!", "ok2", " ", "ok3"]

/-- A concrete file system holding `demoLines` under `in.jsonl`. -/
def demoConvFs : String → Option (List String) :=
  fun p => if p = "in.jsonl" then Option.some demoLines else Option.none

/-- A concrete hub whose only repository has a lone `train` split. -/
def demoHub : String → List (String × List String) :=
  fun _ => [("train", ["a", "b", "c", "d"])]

/-- A concrete hub whose only repository has no `train` split. -/
def demoHubNoTrain : String → List (String × List String) :=
  fun _ => [("validation", ["a", "b"])]

/-- Concrete raw records for the Normalizer instances. -/
def demoRecs : List RawRecord :=
  [[("question", "q0")], [("question", "q1"), ("answer", "a1")]]

/-- Concrete raw records one of which lacks the `question` field. -/
def demoBadRecs : List RawRecord :=
  [[("question", "q0")], [("answer", "a1")]]

/-! ## Helper lemmas: Format Converter -/

theorem read_jsonl_from_counts {R : Type} (parse : String → Option R) :
    ∀ (n : Nat) (lines : List String),
      (read_jsonl_from parse n lines).1.length = validCount parse lines ∧
      parseFailureCount (read_jsonl_from parse n lines).2 = malformedCount parse lines := by
  intro n lines
  induction lines generalizing n with
  | nil => simp [read_jsonl_from, validCount, malformedCount, parseFailureCount]
  | cons l ls ih =>
    have h1 := ih (n + 1)
    by_cases hb : pyStrip l = ""
    · simpa [read_jsonl_from, validCount, malformedCount, parseFailureCount, hb,
        List.filter_cons] using h1
    · cases hp : parse (pyStrip l) with
      | some obj =>
        simpa [read_jsonl_from, validCount, malformedCount, parseFailureCount, hb, hp,
          List.filter_cons] using h1
      | none =>
        simpa [read_jsonl_from, validCount, malformedCount, parseFailureCount, hb, hp,
          List.filter_cons, List.countP_cons] using h1

theorem read_jsonl_counts {R : Type} (parse : String → Option R) (lines : List String) :
    (read_jsonl parse lines).1.length = validCount parse lines ∧
    parseFailureCount (read_jsonl parse lines).2 = malformedCount parse lines :=
  read_jsonl_from_counts parse 1 lines

/-! ## Helper lemmas: Dataset Normalizer -/

theorem mapSplitFrom_ok (split ds : String) :
    ∀ (i : Nat) (records : List RawRecord) (out : List NormRecord),
      mapSplitFrom split ds i records = Except.ok out →
      out.length = records.length ∧
      ∀ (j : Nat) (rc : RawRecord), records[j]? = Option.some rc →
        (out[j]?).map (fun n => n.extra_info.index) = Option.some (i + j) ∧
        (out[j]?).map (fun n => n.extra_info.question) = (popField rc "question").map Prod.fst := by
  intro i records
  induction records generalizing i with
  | nil =>
    intro out h
    simp only [mapSplitFrom] at h
    cases h
    simp
  | cons ex rest ih =>
    intro out h
    simp only [mapSplitFrom] at h
    cases hp : process_fn split ds ex i with
    | error e => rw [hp] at h; cases h
    | ok n =>
      rw [hp] at h
      cases hr : mapSplitFrom split ds (i + 1) rest with
      | error e => rw [hr] at h; cases h
      | ok ns =>
        rw [hr] at h
        cases h
        have htail := ih (i + 1) ns hr
        refine ⟨by simpa using htail.1, ?_⟩
        intro j rc hj
        cases j with
        | zero =>
          replace hj : ex = rc := by simpa using hj
          subst hj
          cases hq : popField ex "question" with
          | none =>
            simp only [process_fn, hq] at hp
            exact Except.noConfusion hp
          | some qr =>
            obtain ⟨qv, qrest⟩ := qr
            simp only [process_fn, hq, Except.ok.injEq] at hp
            subst hp
            simp [hq]
        | succ k =>
          simp only [List.getElem?_cons_succ] at hj
          have := htail.2 k rc hj
          constructor
          · have h1 := this.1
            simpa [Nat.add_assoc, Nat.add_comm 1 k] using h1
          · simpa using this.2

theorem mapSplitFrom_prompt (split ds : String) :
    ∀ (i : Nat) (records : List RawRecord) (out : List NormRecord),
      mapSplitFrom split ds i records = Except.ok out →
      ∀ n ∈ out, n.prompt = [⟨"user", promptHead ++ n.extra_info.question ++ "\n"⟩] := by
  intro i records
  induction records generalizing i with
  | nil =>
    intro out h
    simp only [mapSplitFrom] at h
    cases h
    simp
  | cons ex rest ih =>
    intro out h
    simp only [mapSplitFrom] at h
    cases hp : process_fn split ds ex i with
    | error e => rw [hp] at h; cases h
    | ok n =>
      rw [hp] at h
      cases hr : mapSplitFrom split ds (i + 1) rest with
      | error e => rw [hr] at h; cases h
      | ok ns =>
        rw [hr] at h
        cases h
        intro m hm
        cases hm with
        | head =>
          cases hq : popField ex "question" with
          | none =>
            simp only [process_fn, hq] at hp
            exact Except.noConfusion hp
          | some qr =>
            obtain ⟨qv, qrest⟩ := qr
            simp only [process_fn, hq, Except.ok.injEq] at hp
            subst hp
            simp [prompt_text_of]
        | tail _ hmem => exact ih (i + 1) ns hr m hmem

theorem mapSplit_ok_of_mem (split ds : String) (records : List RawRecord)
    (ex : RawRecord) (hex : ex ∈ records) (hq : popField ex "question" = Option.none) :
    ∀ out, mapSplit split ds records ≠ Except.ok out := by
  intro out h
  obtain ⟨j, hj⟩ := List.mem_iff_getElem?.mp hex
  have hspec := (mapSplitFrom_ok split ds 0 records out h).2 j ex hj
  have hlen := (mapSplitFrom_ok split ds 0 records out h).1
  have hjlt : j < records.length := (List.getElem?_eq_some_iff.mp hj).1
  have hjo : j < out.length := by omega
  rw [hq] at hspec
  rw [List.getElem?_eq_getElem hjo] at hspec
  simp at hspec

theorem writeSplits_mono (ds : String) :
    ∀ (l : List (String × List RawRecord)) (fs0 fs : NormFs) (p : String),
      writeSplits ds l fs0 = Except.ok fs → (fs0 p).isSome = true →
      (fs p).isSome = true := by
  intro l
  induction l with
  | nil =>
    intro fs0 fs p h hs
    simp only [writeSplits] at h
    cases h
    exact hs
  | cons hd tl ih =>
    intro fs0 fs p h hs
    obtain ⟨name, records⟩ := hd
    simp only [writeSplits] at h
    cases hm : mapSplit name ds records with
    | error e => rw [hm] at h; cases h
    | ok mapped =>
      rw [hm] at h
      refine ih _ fs p h ?_
      by_cases hpn : p = name ++ ".parquet" <;> simp [writeFile, hpn, hs]

theorem writeSplits_writes (ds : String) :
    ∀ (l : List (String × List RawRecord)) (fs0 fs : NormFs) (name : String),
      name ∈ l.map Prod.fst → writeSplits ds l fs0 = Except.ok fs →
      (fs (name ++ ".parquet")).isSome = true := by
  intro l
  induction l with
  | nil => intro fs0 fs name hmem _; simp at hmem
  | cons hd tl ih =>
    intro fs0 fs name hmem h
    obtain ⟨n0, records0⟩ := hd
    simp only [writeSplits] at h
    cases hm : mapSplit n0 ds records0 with
    | error e => rw [hm] at h; cases h
    | ok mapped =>
      rw [hm] at h
      simp only [List.map_cons, List.mem_cons] at hmem
      cases hmem with
      | inl heq =>
        subst heq
        refine writeSplits_mono ds tl _ fs _ h ?_
        simp [writeFile]
      | inr hmem2 => exact ih _ fs name hmem2 h

theorem writeSplits_error (ds : String) :
    ∀ (l : List (String × List RawRecord)) (fs0 : NormFs) (name : String)
      (records : List RawRecord), (name, records) ∈ l →
      (∀ out, mapSplit name ds records ≠ Except.ok out) →
      ∀ fs, writeSplits ds l fs0 ≠ Except.ok fs := by
  intro l
  induction l with
  | nil => intro fs0 name records hmem _ fs _; simp at hmem
  | cons hd tl ih =>
    intro fs0 name records hmem hbad fs h
    obtain ⟨n0, records0⟩ := hd
    simp only [writeSplits] at h
    cases hm : mapSplit n0 ds records0 with
    | error e => rw [hm] at h; cases h
    | ok mapped =>
      rw [hm] at h
      cases List.mem_cons.mp hmem with
      | inl heq =>
        have hn : n0 = name := congrArg Prod.fst heq.symm
        have hr : records0 = records := congrArg Prod.snd heq.symm
        subst hn; subst hr
        exact hbad mapped hm
      | inr hmem2 => exact ih _ name records hmem2 hbad fs h

/-! ## Helper lemmas: Splitter/Uploader -/

theorem shuffle_perm {α : Type} (seed : Nat) (xs : List α) :
    (shuffle seed xs).Perm xs := by
  unfold shuffle
  have h := List.perm_insertionSort
    (fun a b => shuffleKey seed a.1 ≤ shuffleKey seed b.1) xs.enum
  have h2 := h.map Prod.snd
  rwa [List.enum_map_snd] at h2

theorem shuffle_length {α : Type} (seed : Nat) (xs : List α) :
    (shuffle seed xs).length = xs.length :=
  (shuffle_perm seed xs).length_eq

theorem nTestOf_le (tsNum tsDen K : Nat) (hden : 0 < tsDen) (hle : tsNum ≤ tsDen) :
    nTestOf tsNum tsDen K ≤ K := by
  unfold nTestOf
  rw [Nat.div_le_iff_le_mul_add_pred hden]
  have hmul : tsNum * K ≤ tsDen * K := Nat.mul_le_mul_right K hle
  omega

theorem nTestOf_lower (tsNum tsDen K : Nat) (hden : 0 < tsDen) :
    tsNum * K ≤ tsDen * nTestOf tsNum tsDen K := by
  unfold nTestOf
  have hdm := Nat.div_add_mod (tsNum * K + tsDen - 1) tsDen
  have hmod := Nat.mod_lt (tsNum * K + tsDen - 1) hden
  omega

theorem nTestOf_upper (tsNum tsDen K : Nat) (hden : 0 < tsDen) :
    tsDen * nTestOf tsNum tsDen K < tsNum * K + tsDen := by
  unfold nTestOf
  have hdm := Nat.div_add_mod (tsNum * K + tsDen - 1) tsDen
  omega

theorem nTestOf_approx (tsNum tsDen K : Nat) (hden : 0 < tsDen) :
    ((tsNum : ℚ) / tsDen) * K ≤ (nTestOf tsNum tsDen K : ℚ) ∧
    (nTestOf tsNum tsDen K : ℚ) < ((tsNum : ℚ) / tsDen) * K + 1 := by
  have hb : (0 : ℚ) < tsDen := by exact_mod_cast hden
  constructor
  · rw [div_mul_eq_mul_div, div_le_iff₀ hb]
    have h : ((tsNum * K : Nat) : ℚ) ≤ ((tsDen * nTestOf tsNum tsDen K : Nat) : ℚ) :=
      Nat.cast_le.mpr (nTestOf_lower tsNum tsDen K hden)
    push_cast at h
    linarith
  · have hrhs : ((tsNum : ℚ) / tsDen) * K + 1 = ((tsNum * K + tsDen : Nat) : ℚ) / tsDen := by
      push_cast
      field_simp
    rw [hrhs, lt_div_iff₀ hb]
    have h : ((tsDen * nTestOf tsNum tsDen K : Nat) : ℚ) < ((tsNum * K + tsDen : Nat) : ℚ) :=
      Nat.cast_lt.mpr (nTestOf_upper tsNum tsDen K hden)
    push_cast at h ⊢
    linarith

theorem runSplitter_ok_shape {α : Type} (repo : String) (tsNum tsDen : Nat)
    (token : Option String) (seed : Nat) (priv : Bool)
    (hub : String → List (String × List α)) (train_split : List α) (sd : SplitPair α)
    (hts : lookupSplit (hub repo) "train" = Option.some train_split)
    (hrun : (runSplitter repo tsNum tsDen token seed priv hub).2 = Except.ok sd) :
    sd = ⟨(shuffle seed train_split).drop (nTestOf tsNum tsDen train_split.length),
          (shuffle seed train_split).take (nTestOf tsNum tsDen train_split.length)⟩ := by
  have hlen : (shuffle seed train_split).length = train_split.length :=
    shuffle_length seed train_split
  unfold runSplitter at hrun
  by_cases htok : token.getD "" = ""
  · rw [if_pos htok] at hrun
    exact Except.noConfusion hrun
  · rw [if_neg htok, hts] at hrun
    simp only [train_test_split] at hrun
    have hsd := Except.ok.inj hrun
    rw [hlen] at hsd
    exact hsd.symm

/-! ## Claim theorems: Format Converter -/

/-- C5: for every line-delimited input file with `N` valid JSON lines and `M`
malformed lines, the Converter returns normally (nothing raised, in
particular not on malformed lines, each of which only yields a diagnostic),
produces a snapshot with exactly `N` rows when `N > 0`, and produces no
snapshot at all when `N = 0`. -/
theorem conv_row_counts {R : Type} (fs : String → Option (List String))
    (parse : String → Option R) (path : String) (outp : Option String)
    (lines : List String) (hfs : fs path = Option.some lines) :
    (convert_jsonl_to_parquet fs parse path outp).raised = Option.none ∧
    (0 < validCount parse lines →
      ((convert_jsonl_to_parquet fs parse path outp).written.map (fun w => w.2.length)) =
        Option.some (validCount parse lines)) ∧
    (validCount parse lines = 0 →
      (convert_jsonl_to_parquet fs parse path outp).written = Option.none) ∧
    parseFailureCount (convert_jsonl_to_parquet fs parse path outp).diags =
      malformedCount parse lines := by
  have hc := read_jsonl_counts parse lines
  by_cases he : (read_jsonl parse lines).1.isEmpty
  · have hlen : (read_jsonl parse lines).1.length = 0 := by
      simpa [List.isEmpty_iff_length_eq_zero] using he
    have hv : validCount parse lines = 0 := by rw [← hc.1]; exact hlen
    refine ⟨?_, ?_, ?_, ?_⟩
    · simp [convert_jsonl_to_parquet, hfs, he]
    · intro h0; omega
    · intro _; simp [convert_jsonl_to_parquet, hfs, he]
    · simp only [convert_jsonl_to_parquet, hfs, he, if_true]
      simpa [parseFailureCount, List.countP_append] using hc.2
  · refine ⟨?_, ?_, ?_, ?_⟩
    · simp [convert_jsonl_to_parquet, hfs, he]
    · intro _
      simp only [convert_jsonl_to_parquet, hfs, he, if_false]
      simp [hc.1]
    · intro hv
      have hlen : (read_jsonl parse lines).1.length = 0 := by rw [hc.1]; exact hv
      have : (read_jsonl parse lines).1.isEmpty := by
        simpa [List.isEmpty_iff_length_eq_zero] using hlen
      exact absurd this he
    · simp only [convert_jsonl_to_parquet, hfs, he, if_false]
      exact hc.2

/-- C5 witness: the concrete five-line file (three valid, one malformed, one
blank) yields a three-row snapshot and one parse diagnostic. -/
theorem conv_row_counts_witness :
    ((convert_jsonl_to_parquet demoConvFs demoParse "in.jsonl" Option.none).written.map
      (fun w => w.2.length)) = Option.some (validCount demoParse demoLines) ∧
    parseFailureCount (convert_jsonl_to_parquet demoConvFs demoParse "in.jsonl" Option.none).diags =
      malformedCount demoParse demoLines := by
  have h := conv_row_counts demoConvFs demoParse "in.jsonl" Option.none demoLines rfl
  have hv : 0 < validCount demoParse demoLines := by
    have h3 : validCount demoParse demoLines = 3 := rfl
    omega
  exact ⟨h.2.1 hv, h.2.2.2⟩

/-- C10: for every input path that names no existing file, the single-file
conversion prints an error diagnostic and returns normally, raising nothing
and writing no output file. -/
theorem conv_missing_input {R : Type} (fs : String → Option (List String))
    (parse : String → Option R) (path : String) (outp : Option String)
    (hfs : fs path = Option.none) :
    convert_jsonl_to_parquet fs parse path outp =
      ⟨Option.none, Option.none, [ConvDiag.inputMissing]⟩ := by
  simp [convert_jsonl_to_parquet, hfs]

/-- C10 witness: a concrete call on an empty file system returns normally
with only the missing-input diagnostic and no written file. -/
theorem conv_missing_input_witness :
    convert_jsonl_to_parquet (fun _ => Option.none) demoParse "absent.jsonl" Option.none =
      ⟨Option.none, Option.none, [ConvDiag.inputMissing]⟩ :=
  conv_missing_input (fun _ => Option.none) demoParse "absent.jsonl" Option.none rfl

/-! ## Claim theorems: Dataset Normalizer -/

/-- C6: in every successfully mapped split, the output has one Normalized
Record per Raw Record, the record at position `i` carries `extra_info.index
= i` (its zero-based position in the split) and `extra_info.question` equal,
verbatim, to the popped `question` field of the Raw Record at the same
position — so each Normalized Record is traceable to exactly one Raw
Record. -/
theorem norm_traceable (split ds : String) (records : List RawRecord)
    (out : List NormRecord) (h : mapSplit split ds records = Except.ok out) :
    out.length = records.length ∧
    ∀ (i : Nat) (rc : RawRecord), records[i]? = Option.some rc →
      (out[i]?).map (fun n => n.extra_info.index) = Option.some i ∧
      (out[i]?).map (fun n => n.extra_info.question) = (popField rc "question").map Prod.fst := by
  have hm := mapSplitFrom_ok split ds 0 records out h
  refine ⟨hm.1, ?_⟩
  intro i rc hi
  have := hm.2 i rc hi
  simpa using this

/-- C6 witness: on two concrete records the mapped split has two rows, and
row 1 carries index 1 and the verbatim question of raw record 1. -/
theorem norm_traceable_witness :
    (okD (mapSplit "train" "src" demoRecs)).length = demoRecs.length ∧
    ((okD (mapSplit "train" "src" demoRecs))[1]?).map (fun n => n.extra_info.index) =
      Option.some 1 ∧
    ((okD (mapSplit "train" "src" demoRecs))[1]?).map (fun n => n.extra_info.question) =
      (popField [("question", "q1"), ("answer", "a1")] "question").map Prod.fst := by
  have h := norm_traceable "train" "src" demoRecs (okD (mapSplit "train" "src" demoRecs)) rfl
  have h2 := h.2 1 [("question", "q1"), ("answer", "a1")] rfl
  exact ⟨h.1, h2.1, h2.2⟩

/-- C7: a Raw Record without the `question` field makes the whole Normalizer
run fail (no split mapping containing it can succeed), and every Normalized
Record a successful mapping does produce has its question payload embedded
verbatim in its single-message prompt. -/
theorem norm_missing_question_fatal (ds : String)
    (splits : List (String × List RawRecord)) (name : String)
    (records : List RawRecord) (ex : RawRecord)
    (hmem : (name, records) ∈ splits) (hex : ex ∈ records)
    (hq : popField ex "question" = Option.none) :
    (runNormalizer ds splits).isOk = false ∧
    (∀ out, mapSplit name ds records ≠ Except.ok out) ∧
    ∀ (split2 ds2 : String) (records2 : List RawRecord) (out2 : List NormRecord),
      mapSplit split2 ds2 records2 = Except.ok out2 →
      ∀ n ∈ out2, n.prompt = [⟨"user", promptHead ++ n.extra_info.question ++ "\n"⟩] := by
  have hbad := mapSplit_ok_of_mem name ds records ex hex hq
  refine ⟨?_, hbad, ?_⟩
  · unfold runNormalizer
    cases hw : writeSplits ds splits emptyFs with
    | error e => rfl
    | ok fs => exact absurd hw (writeSplits_error ds splits emptyFs name records hmem hbad fs)
  · intro split2 ds2 records2 out2 h2 n hn
    exact mapSplitFrom_prompt split2 ds2 0 records2 out2 h2 n hn

/-- C7 witness: with a concrete split whose second record lacks `question`,
the Normalizer run is not successful. -/
theorem norm_missing_question_fatal_witness :
    (runNormalizer "src" [("train", demoBadRecs)]).isOk = false :=
  (norm_missing_question_fatal "src" [("train", demoBadRecs)] "train" demoBadRecs
    [("answer", "a1")] (List.mem_singleton.mpr rfl)
    (List.Mem.tail _ (List.Mem.head _)) rfl).1

/-- C8: when the source has a `validation` split and no `test` split, a
successful Normalizer run leaves a `test` snapshot whose content is identical
to the `validation` snapshot, and the `validation` snapshot still exists. -/
theorem norm_validation_fallback (ds : String)
    (splits : List (String × List RawRecord)) (fs : NormFs)
    (hv : (splits.map Prod.fst).contains "validation" = true)
    (ht : (splits.map Prod.fst).contains "test" = false)
    (hrun : runNormalizer ds splits = Except.ok fs) :
    fs "test.parquet" = fs "validation.parquet" ∧
    fs "validation.parquet" ≠ Option.none := by
  unfold runNormalizer at hrun
  cases hw : writeSplits ds splits emptyFs with
  | error e => rw [hw] at hrun; exact Except.noConfusion hrun
  | ok fs0 =>
    rw [hw] at hrun
    rw [hv, ht] at hrun
    simp only [Bool.not_false, Bool.and_self, if_true] at hrun
    have hvmem : "validation" ∈ splits.map Prod.fst := by
      simpa using hv
    have hsome : (fs0 "validation.parquet").isSome = true :=
      writeSplits_writes ds splits emptyFs fs0 "validation" hvmem hw
    cases hval : fs0 "validation.parquet" with
    | none => rw [hval] at hsome; exact Bool.noConfusion hsome
    | some content =>
      rw [hval] at hrun
      have hfs : writeFile fs0 "test.parquet" content = fs := by
        exact Except.ok.inj hrun
      subst hfs
      constructor
      · simp [writeFile, hval]
      · simp [writeFile, hval]

/-- C8 witness: a concrete source with only a `validation` split produces a
`test` snapshot equal to the `validation` snapshot, which still exists. -/
theorem norm_validation_fallback_witness :
    okFs (runNormalizer "src" [("validation", demoRecs)]) "test.parquet" =
      okFs (runNormalizer "src" [("validation", demoRecs)]) "validation.parquet" ∧
    okFs (runNormalizer "src" [("validation", demoRecs)]) "validation.parquet" ≠
      Option.none :=
  norm_validation_fallback "src" [("validation", demoRecs)]
    (okFs (runNormalizer "src" [("validation", demoRecs)])) rfl rfl rfl

/-! ## Claim theorems: Splitter/Uploader -/

/-- C1: two independent Splitter runs over the same source data with the same
seed and the same test fraction — even under different incidental parameters
(credential, visibility flag) — produce the identical partition outcome, the
same records in `train` and in `test`. -/
theorem splitter_deterministic {α : Type} (repo : String) (tsNum tsDen : Nat)
    (t1 t2 : Option String) (seed : Nat) (p1 p2 : Bool)
    (hub : String → List (String × List α))
    (h1 : t1.getD "" ≠ "") (h2 : t2.getD "" ≠ "") :
    (runSplitter repo tsNum tsDen t1 seed p1 hub).2 =
      (runSplitter repo tsNum tsDen t2 seed p2 hub).2 := by
  unfold runSplitter
  rw [if_neg h1, if_neg h2]
  cases lookupSplit (hub repo) "train" <;> rfl

/-- C1 witness: two concrete runs with the same seed and source but different
tokens and visibility flags agree on the partition. -/
theorem splitter_deterministic_witness :
    (runSplitter "repo" 1 2 (Option.some "tokA") 42 false demoHub).2 =
      (runSplitter "repo" 1 2 (Option.some "tokB") 42 true demoHub).2 :=
  splitter_deterministic "repo" 1 2 (Option.some "tokA") (Option.some "tokB") 42
    false true demoHub (by decide) (by decide)

/-- C2: in every successful run the partition is obtained by shuffling the
source `train` split with the seed and cutting the shuffled sequence
contiguously: `test` is the first `test_size` fraction of the shuffled
sequence, `train` is the remainder, and together they concatenate back to the
shuffled sequence. -/
theorem splitter_algorithm {α : Type} (repo : String) (tsNum tsDen : Nat)
    (token : Option String) (seed : Nat) (priv : Bool)
    (hub : String → List (String × List α)) (train_split : List α) (sd : SplitPair α)
    (hts : lookupSplit (hub repo) "train" = Option.some train_split)
    (hrun : (runSplitter repo tsNum tsDen token seed priv hub).2 = Except.ok sd) :
    sd.test = (shuffle seed train_split).take (nTestOf tsNum tsDen train_split.length) ∧
    sd.train = (shuffle seed train_split).drop (nTestOf tsNum tsDen train_split.length) ∧
    sd.test ++ sd.train = shuffle seed train_split := by
  have hsd := runSplitter_ok_shape repo tsNum tsDen token seed priv hub train_split sd
    hts hrun
  subst hsd
  exact ⟨rfl, rfl, List.take_append_drop _ _⟩

/-- C2 witness: the concrete successful run cuts the shuffled four-record
sequence contiguously. -/
theorem splitter_algorithm_witness :
    (okPair (runSplitter "repo" 1 2 (Option.some "tok") 42 false demoHub).2).test =
      (shuffle 42 ["a", "b", "c", "d"]).take (nTestOf 1 2 4) ∧
    (okPair (runSplitter "repo" 1 2 (Option.some "tok") 42 false demoHub).2).train =
      (shuffle 42 ["a", "b", "c", "d"]).drop (nTestOf 1 2 4) ∧
    (okPair (runSplitter "repo" 1 2 (Option.some "tok") 42 false demoHub).2).test ++
      (okPair (runSplitter "repo" 1 2 (Option.some "tok") 42 false demoHub).2).train =
      shuffle 42 ["a", "b", "c", "d"] :=
  splitter_algorithm "repo" 1 2 (Option.some "tok") 42 false demoHub
    ["a", "b", "c", "d"] (okPair (runSplitter "repo" 1 2 (Option.some "tok") 42 false demoHub).2)
    rfl rfl

/-- C4: in every successful run with a sensible fraction (`0 < tsDen`,
`tsNum ≤ tsDen`) the two output splits partition the input `train` split of
size `K` exactly — their concatenation is a permutation of the input, every
record occurs exactly as often in the two outputs combined as in the input,
the lengths add up to `K` — and the `test` size is the `test_size` fraction
of `K` within integer-rounding tolerance. -/
theorem splitter_partition {α : Type} [DecidableEq α] (repo : String)
    (tsNum tsDen : Nat) (token : Option String) (seed : Nat) (priv : Bool)
    (hub : String → List (String × List α)) (train_split : List α) (sd : SplitPair α)
    (hden : 0 < tsDen) (hle : tsNum ≤ tsDen)
    (hts : lookupSplit (hub repo) "train" = Option.some train_split)
    (hrun : (runSplitter repo tsNum tsDen token seed priv hub).2 = Except.ok sd) :
    (sd.test ++ sd.train).Perm train_split ∧
    (∀ x : α, sd.test.count x + sd.train.count x = train_split.count x) ∧
    sd.test.length + sd.train.length = train_split.length ∧
    sd.test.length = nTestOf tsNum tsDen train_split.length ∧
    ((tsNum : ℚ) / tsDen) * train_split.length ≤ (sd.test.length : ℚ) ∧
    (sd.test.length : ℚ) < ((tsNum : ℚ) / tsDen) * train_split.length + 1 := by
  have hsd := runSplitter_ok_shape repo tsNum tsDen token seed priv hub train_split sd
    hts hrun
  subst hsd
  have hperm : ((shuffle seed train_split).take (nTestOf tsNum tsDen train_split.length) ++
      (shuffle seed train_split).drop (nTestOf tsNum tsDen train_split.length)).Perm
      train_split := by
    rw [List.take_append_drop]
    exact shuffle_perm seed train_split
  have hlen : (shuffle seed train_split).length = train_split.length :=
    shuffle_length seed train_split
  have hn : nTestOf tsNum tsDen train_split.length ≤ train_split.length :=
    nTestOf_le tsNum tsDen train_split.length hden hle
  have htest : ((shuffle seed train_split).take
      (nTestOf tsNum tsDen train_split.length)).length =
      nTestOf tsNum tsDen train_split.length := by
    rw [List.length_take, hlen]
    omega
  refine ⟨hperm, ?_, ?_, ?_, ?_, ?_⟩
  · intro x
    have := hperm.count_eq x
    rwa [List.count_append] at this
  · have := hperm.length_eq
    rwa [List.length_append] at this
  · exact htest
  · rw [htest]
    exact (nTestOf_approx tsNum tsDen train_split.length hden).1
  · rw [htest]
    exact (nTestOf_approx tsNum tsDen train_split.length hden).2

/-- C4 witness: the concrete run with fraction 1/2 over four records yields a
two-record `test`, a two-record `train`, and an exact partition. -/
theorem splitter_partition_witness :
    ((okPair (runSplitter "repo" 1 2 (Option.some "tok") 42 false demoHub).2).test ++
      (okPair (runSplitter "repo" 1 2 (Option.some "tok") 42 false demoHub).2).train).Perm
      ["a", "b", "c", "d"] ∧
    (okPair (runSplitter "repo" 1 2 (Option.some "tok") 42 false demoHub).2).test.length =
      nTestOf 1 2 4 := by
  have h := splitter_partition "repo" 1 2 (Option.some "tok") 42 false demoHub
    ["a", "b", "c", "d"]
    (okPair (runSplitter "repo" 1 2 (Option.some "tok") 42 false demoHub).2)
    (by decide) (by decide) rfl rfl
  exact ⟨h.1, h.2.2.2.1⟩

/-- C3 counterexample: a concrete run whose source has records but no `train`
split fails fatally, yet its trace already contains the network/disk
activity of downloading the source dataset — refuting the claim that both
precondition failures abort before any network or disk activity. -/
theorem splitter_abort_cex :
    ((runSplitter "repo" 1 5 (Option.some "tok") 42 false demoHubNoTrain).2).isOk = false ∧
    SplitterEvent.loadDataset "repo" ∈
      (runSplitter "repo" 1 5 (Option.some "tok") 42 false demoHubNoTrain).1 := by
  constructor
  · rfl
  · exact List.Mem.head _

/-- C3, amended: a missing credential aborts the run before any network or
disk activity (the trace is empty); a missing `train` split aborts the run
after the source dataset has been downloaded but before any further network
or disk activity (the trace is exactly the one download, with no upload). -/
theorem splitter_abort_amended {α : Type} (repo : String) (tsNum tsDen : Nat)
    (token : Option String) (seed : Nat) (priv : Bool)
    (hub : String → List (String × List α)) :
    (token.getD "" = "" →
      (runSplitter repo tsNum tsDen token seed priv hub).1 = [] ∧
      ((runSplitter repo tsNum tsDen token seed priv hub).2).isOk = false) ∧
    (token.getD "" ≠ "" → lookupSplit (hub repo) "train" = Option.none →
      (runSplitter repo tsNum tsDen token seed priv hub).1 =
        [SplitterEvent.loadDataset repo] ∧
      ((runSplitter repo tsNum tsDen token seed priv hub).2).isOk = false) := by
  constructor
  · intro h
    unfold runSplitter
    rw [if_pos h]
    exact ⟨rfl, rfl⟩
  · intro h hn
    unfold runSplitter
    rw [if_neg h, hn]
    exact ⟨rfl, rfl⟩

/-- C3 witness: concretely, a run without a credential performs no activity
at all, and a run on a source without a `train` split performs exactly the
one download and fails. -/
theorem splitter_abort_amended_witness :
    ((runSplitter "repo" 1 5 Option.none 42 false demoHubNoTrain).1 = [] ∧
      ((runSplitter "repo" 1 5 Option.none 42 false demoHubNoTrain).2).isOk = false) ∧
    ((runSplitter "repo" 1 5 (Option.some "tok") 42 false demoHubNoTrain).1 =
        [SplitterEvent.loadDataset "repo"] ∧
      ((runSplitter "repo" 1 5 (Option.some "tok") 42 false demoHubNoTrain).2).isOk = false) :=
  ⟨(splitter_abort_amended "repo" 1 5 Option.none 42 false demoHubNoTrain).1 rfl,
   (splitter_abort_amended "repo" 1 5 (Option.some "tok") 42 false demoHubNoTrain).2
     (by decide) rfl⟩

/-- C9: every successful run's trace loads from and pushes to the same
repository identifier — the `--original_repo` argument — so the two-split
dataset is published back over the source repository; any push target in the
trace was also the load source. -/
theorem splitter_publish_target {α : Type} (repo : String) (tsNum tsDen : Nat)
    (token : Option String) (seed : Nat) (priv : Bool)
    (hub : String → List (String × List α)) (sd : SplitPair α)
    (hrun : (runSplitter repo tsNum tsDen token seed priv hub).2 = Except.ok sd) :
    (runSplitter repo tsNum tsDen token seed priv hub).1 =
      [SplitterEvent.loadDataset repo, SplitterEvent.pushToHub repo priv] ∧
    ∀ (dest : String) (pv : Bool),
      SplitterEvent.pushToHub dest pv ∈ (runSplitter repo tsNum tsDen token seed priv hub).1 →
      dest = repo ∧
        SplitterEvent.loadDataset dest ∈ (runSplitter repo tsNum tsDen token seed priv hub).1 := by
  by_cases htok : token.getD "" = ""
  · unfold runSplitter at hrun
    rw [if_pos htok] at hrun
    exact Except.noConfusion hrun
  · cases hts : lookupSplit (hub repo) "train" with
    | none =>
      unfold runSplitter at hrun
      rw [if_neg htok, hts] at hrun
      exact Except.noConfusion hrun
    | some tr =>
      have hev : (runSplitter repo tsNum tsDen token seed priv hub).1 =
          [SplitterEvent.loadDataset repo, SplitterEvent.pushToHub repo priv] := by
        unfold runSplitter
        rw [if_neg htok, hts]
      refine ⟨hev, ?_⟩
      intro dest pv hmem
      rw [hev] at hmem
      simp only [List.mem_cons, List.mem_singleton] at hmem
      cases hmem with
      | inl habs => exact SplitterEvent.noConfusion habs
      | inr hmem2 =>
        cases hmem2 with
        | inl heq =>
          have hd : dest = repo := by
            injection heq with hd hp
          subst hd
          exact ⟨rfl, by rw [hev]; exact List.Mem.head _⟩
        | inr habs => simp at habs

/-- C9 witness: the concrete successful run loads from and pushes to the
same repository id. -/
theorem splitter_publish_target_witness :
    (runSplitter "repo" 1 2 (Option.some "tok") 42 false demoHub).1 =
      [SplitterEvent.loadDataset "repo", SplitterEvent.pushToHub "repo" false] :=
  (splitter_publish_target "repo" 1 2 (Option.some "tok") 42 false demoHub
    (okPair (runSplitter "repo" 1 2 (Option.some "tok") 42 false demoHub).2) rfl).1

end Verl
